import Mathlib

/-!
Verification of the `prompt_gen` project-context reader
(`src/prompt_gen/cli.py`) against its specification.

The Python module is shallowly embedded below.  File-system trees are
modelled by `FSNode`; the live file system consulted by the code
(`mimetypes.guess_type`, the first 1024 bytes of a file, exceptions
raised while opening or decoding) is carried as per-file data in
`FileBlob`.  Python strings are modelled by `String` and all string
primitives used by the code (`split('/')`, slicing, `startswith`,
`replace`, `os.path.basename`) are re-implemented over the character
list so that every definition evaluates inside the kernel.

Conventions:
* all paths are absolute, `/`-separated strings, as produced by
  `os.path.abspath(...).replace('\\', '/')` on a POSIX system;
* `os.path.isdir(pattern)` (rule 1 of `_should_exclude`) and the
  pattern normalisation `os.path.abspath(pattern) if
  os.path.exists(pattern) else pattern` consult the live file system
  relative to the working directory; they are abstracted as the
  function parameters `isDirPat` and `normPat`;
* directories are assumed readable (the `PermissionError` branch of
  `os.listdir` in `build_tree` is not exercised) and root paths are
  assumed to exist, matching the spec's "assumed to exist".
-/

/-- Outcome of attempting to open and decode one file, covering the
exception branches of the per-file `try` block in `read_files`:
a successfully decoded string, `PermissionError`, `IOError`, or any
other exception (with `str(e)` as detail). -/
inductive ReadOutcome where
  | ok (content : String)
  | permError
  | ioError (detail : String)
  | unexpectedError (detail : String)
deriving DecidableEq, Repr

/-- The data of one regular file as seen by the Python code: the MIME
type `mimetypes.guess_type` returns for its name, the first 1024 bytes
(read when no MIME type is known), whether the binary check itself
raised an exception, and the outcome of opening and decoding it. -/
structure FileBlob where
  mime : Option String
  chunk : List Nat
  binErr : Bool
  read : ReadOutcome
deriving DecidableEq, Repr

/-- A node of the file-system tree under a root directory. -/
inductive FSNode where
  | file (name : String) (blob : FileBlob)
  | dir (name : String) (children : List FSNode)
deriving Repr

/-- A root path handed to `display_project_structure` or `read_files`:
either an existing regular file or an existing directory, with its
absolute path and (for directories) its listing. -/
inductive RootPath where
  | file (path : String) (blob : FileBlob)
  | dir (path : String) (children : List FSNode)
deriving Repr

/-- A file queued for the per-file processing loop of `read_files`:
its absolute path and its data. -/
structure PFile where
  path : String
  blob : FileBlob
deriving DecidableEq, Repr

def nodeName : FSNode → String
  | .file n _ => n
  | .dir n _ => n

def nodeIsDir : FSNode → Bool
  | .file _ _ => false
  | .dir _ _ => true

/-! ### String primitives

Character-list re-implementations of the Python string operations used
by `cli.py`, chosen so that they reduce inside the kernel.  Python
strings index by code point, exactly like `List Char`. -/

/-- Python `s.split(sep)` for a one-character separator: splitting the
empty string yields `[""]`, and separators at the ends yield empty
fields, e.g. `"/a".split('/') == ['', 'a']`. -/
def splitCharsOn (sep : Char) : List Char → List (List Char)
  | [] => [[]]
  | c :: cs =>
    let rest := splitCharsOn sep cs
    if c == sep then [] :: rest
    else
      match rest with
      | h :: t => (c :: h) :: t
      | [] => [[c]]

/-- Python `path.split('/')`. -/
def splitSlash (s : String) : List String :=
  (splitCharsOn '/' s.data).map (fun l => ⟨l⟩)

/-- Python `os.path.basename`: everything after the last `/` (empty when the
path ends in `/`). -/
def basename (p : String) : String :=
  ((splitSlash p).getLast?).getD ""

/-- Python `s.startswith(p)`. -/
def strStartsWith (s p : String) : Bool :=
  p.data.isPrefixOf s.data

/-- Python `s.replace('\\', '/')` (the arguments are one-character
strings, so this is a character map). -/
def replaceBackslash (s : String) : String :=
  ⟨s.data.map (fun c => if c == '\\' then '/' else c)⟩

/-- Python `s[n:]` (slicing by code points). -/
def strDrop (s : String) (n : Nat) : String :=
  ⟨s.data.drop n⟩

/-- Python `s.count('/')` for a one-character argument. -/
def countSlash (s : String) : Nat :=
  s.data.count '/'

/-- Python string comparison `a < b`: lexicographic on code points.
Used for `sorted(os.listdir(...))`. -/
def charsLt : List Char → List Char → Bool
  | [], [] => false
  | [], _ :: _ => true
  | _ :: _, [] => false
  | a :: as, b :: bs =>
    if a < b then true
    else if b < a then false
    else charsLt as bs

def strLt (a b : String) : Bool := charsLt a.data b.data

/-! ### `fnmatch.fnmatch`

Shell-style glob matching as implemented by Python's `fnmatch.translate`
on POSIX (`os.path.normcase` is the identity there): `*` matches any
run of characters, `?` any single character, `[seq]` a character set
with ranges (`[!seq]` negated; a `]` directly after `[` or `[!` is a
member; an unterminated `[` is literal), and the regex is anchored at
both ends.  The matcher takes a fuel argument (structural recursion, so
that it evaluates in the kernel); the wrapper supplies
`pattern.length + name.length + 1` fuel, which the backtracking search
never exhausts since every step consumes pattern or input. -/

/-- Scan for the closing `]` of a character class, returning the
member characters and the remainder of the pattern. -/
def scanRBracket : List Char → Option (List Char × List Char)
  | [] => none
  | ']' :: t => some ([], t)
  | c :: t =>
    match scanRBracket t with
    | some (b, r) => some (c :: b, r)
    | none => none

/-- Parse the body of a `[...]` class (argument: the characters after
`[`).  Returns `(negated, members, rest)`, or `none` when there is no
closing `]` (in which case `[` is literal). -/
def parseClass (l : List Char) : Option (Bool × List Char × List Char) :=
  let (neg, l1) : Bool × List Char :=
    match l with
    | '!' :: t => (true, t)
    | _ => (false, l)
  match l1 with
  | ']' :: t =>
    match scanRBracket t with
    | some (b, r) => some (neg, ']' :: b, r)
    | none => none
  | _ =>
    match scanRBracket l1 with
    | some (b, r) => some (neg, b, r)
    | none => none

/-- Membership of a character in a class body, with `a-z` ranges (a
`-` that is first or last is literal, as in a regex class). -/
def classMatch : List Char → Char → Bool
  | a :: '-' :: b :: rest, c =>
    if rest.isEmpty && b == ']' then false  -- unreachable: `]` never in body tail
    else (a ≤ c && c ≤ b) || classMatch rest c
  | a :: rest, c => a == c || classMatch rest c
  | [], _ => false

/-- The glob matcher, fuel-indexed.  Clauses follow the regex produced
by `fnmatch.translate`. -/
def globMatchF : Nat → List Char → List Char → Bool
  | 0, _, _ => false
  | _+1, [], s => s.isEmpty
  | fuel+1, '*' :: ps, [] => globMatchF fuel ps []
  | fuel+1, '*' :: ps, c :: cs =>
    globMatchF fuel ps (c :: cs) || globMatchF fuel ('*' :: ps) cs
  | fuel+1, '?' :: ps, s =>
    match s with
    | _ :: cs => globMatchF fuel ps cs
    | [] => false
  | fuel+1, '[' :: ps, s =>
    match parseClass ps with
    | some (neg, body, rest) =>
      match s with
      | c :: cs => (classMatch body c != neg) && globMatchF fuel rest cs
      | [] => false
    | none =>
      match s with
      | c :: cs => ('[' == c) && globMatchF fuel ps cs
      | [] => false
  | fuel+1, p :: ps, s =>
    match s with
    | c :: cs => (p == c) && globMatchF fuel ps cs
    | [] => false

/-- Python `fnmatch.fnmatch(name, pattern)` on POSIX. -/
def fnmatch (name pattern : String) : Bool :=
  globMatchF (pattern.data.length + name.data.length + 1) pattern.data name.data

/-! ### `_should_exclude` (the Pattern Matcher) -/

/-- The ancestor-segment rule of `_should_exclude`: for each depth `i`,
the path truncated after its `i`-th segment is glob-matched against
every (slash-normalised) pattern, and the single segment at depth `i`
against every raw pattern.  In the source this loop closes over
`normalized_patterns`, shadowing the enclosing `pattern`. -/
def ancestor_match (normalized_patterns : List String) (full_path : String) : Bool :=
  let parts := splitSlash full_path
  (List.range parts.length).any fun i =>
    let partial_path := String.intercalate "/" (parts.take (i+1))
    normalized_patterns.any fun pat =>
      fnmatch partial_path (replaceBackslash pat) || fnmatch (parts.getD i "") pat

/-- The helper `path_matches_pattern` from `_should_exclude`.  `isDirPat` models
`os.path.isdir(pattern)` on the live file system. -/
def path_matches_pattern (isDirPat : String → Bool) (normalized_patterns : List String)
    (full_path pattern : String) : Bool :=
  (isDirPat pattern && strStartsWith full_path (pattern ++ "/"))
  || fnmatch (basename full_path) (basename pattern)
  || fnmatch full_path (replaceBackslash pattern ++ "*")
  || ancestor_match normalized_patterns full_path

/-- The method `_should_exclude(path, exclude_patterns)`.  `path` is already the
normalised absolute path; `normPat` models the per-pattern
normalisation `os.path.abspath(p).replace('\\', '/') if
os.path.exists(p) else p`.  The Python argument is a set iterated by
`any`, so a list model is order-independent here. -/
def should_exclude (isDirPat : String → Bool) (normPat : String → String)
    (path : String) (exclude_patterns : List String) : Bool :=
  let normalized_patterns := exclude_patterns.map normPat
  normalized_patterns.any (path_matches_pattern isDirPat normalized_patterns path)

/-! ### `_is_binary_file` (the Binary Detector) -/

/-- The MIME-prefix list of `_is_binary_file`. -/
def binary_types : List String :=
  ["application/", "image/", "audio/", "video/", "font/", "model/"]

/-- The method `_is_binary_file`: if any exception occurs the file is assumed
binary; with no MIME type the first 1024 bytes are scanned for a zero
or high-bit byte; otherwise the MIME type is compared against
`binary_types` by prefix. -/
def is_binary_file (b : FileBlob) : Bool :=
  if b.binErr then true
  else
    match b.mime with
    | none => b.chunk.any (fun byte => byte == 0 || byte > 127)
    | some m => binary_types.any (fun btype => strStartsWith m btype)

/-! Size of a file-system subtree, used only to supply ample fuel to
the tree-recursive functions below (any fuel exceeding the nesting
depth gives the same result). -/

mutual
def fsSize : FSNode → Nat
  | .file _ _ => 1
  | .dir _ cs => 1 + fsListSize cs
def fsListSize : List FSNode → Nat
  | [] => 0
  | c :: cs => fsSize c + fsListSize cs
end

/-! ### Sorting directory listings

`build_tree` iterates `sorted(os.listdir(directory))`.  Python's sort
is stable and compares names lexicographically by code point; a stable
insertion sort over `strLt` implements it. -/

def insertNode (e : FSNode) : List FSNode → List FSNode
  | [] => [e]
  | x :: xs =>
    if strLt (nodeName x) (nodeName e) then x :: insertNode e xs
    else e :: x :: xs

/-- Python `sorted(entries)` by entry name (stable). -/
def sortNodes : List FSNode → List FSNode
  | [] => []
  | x :: xs => insertNode x (sortNodes xs)

/-! ### `display_project_structure` (tree rendering) -/

/-- The early-return test of `build_tree`:
`max_depth is not None and depth > max_depth`. -/
def tree_stop (maxd : Option Nat) (depth : Nat) : Bool :=
  match maxd with
  | some m => decide (depth > m)
  | none => false

/-- The recursive `build_tree` helper of `display_project_structure`,
fuel-indexed so that it computes in the kernel (the wrapper
`build_tree` supplies more fuel than the tree is deep, and every
recursive call descends into a strictly smaller subtree).  Entries are
the sorted listing; `is_last` compares the index against the length of
the full listing, before exclusion filtering; excluded entries are
skipped entirely (no line, no descent); directory entries get a `/`
suffix and a recursive call with the prefix extended by four spaces
after a last sibling and by `│   ` otherwise.  All directories are
assumed readable (the `PermissionError` branch yields `[]`). -/
def build_treeF (se : String → Bool) (maxd : Option Nat) :
    Nat → String → String → Nat → List FSNode → List String
  | 0, _, _, _, _ => []
  | fuel+1, directory, pre, depth, children =>
    if tree_stop maxd depth then []
    else
      let entries := sortNodes children
      entries.enum.flatMap fun ie =>
        let index := ie.1
        let entry := ie.2
        let full_path := directory ++ "/" ++ nodeName entry
        if se full_path then []
        else
          let is_last := index == entries.length - 1
          let connector := if is_last then "└── " else "├── "
          let entry_display :=
            pre ++ connector ++ nodeName entry ++ (if nodeIsDir entry then "/" else "")
          entry_display ::
            (match entry with
             | .dir _ cs =>
               let extension := if is_last then "    " else "│   "
               build_treeF se maxd fuel full_path (pre ++ extension) (depth + 1) cs
             | .file _ _ => [])

/-- The function `build_tree(directory, prefix, depth)` on a directory whose listing
is `children`. -/
def build_tree (se : String → Bool) (maxd : Option Nat) (directory pre : String)
    (depth : Nat) (children : List FSNode) : List String :=
  build_treeF se maxd (fsListSize children + 1) directory pre depth children

/-- The lines `display_project_structure` emits for one root: a file
root is listed by basename unless excluded; a directory root is listed
as `basename/` (with no exclusion check) followed by its tree. -/
def display_root (se : String → Bool) (maxd : Option Nat) : RootPath → List String
  | .file p _ => if se p then [] else [basename p]
  | .dir p cs => (basename p ++ "/") :: build_tree se maxd p "" 0 cs

/-- The method `display_project_structure(paths, exclude_patterns, max_depth)`:
the per-root lines joined with newlines.  Root paths are assumed to
exist (a missing path only prints a warning and is skipped). -/
def display_project_structure (isDirPat : String → Bool) (normPat : String → String)
    (roots : List RootPath) (exclude_patterns : List String) (maxd : Option Nat) : String :=
  let se := fun p => should_exclude isDirPat normPat p exclude_patterns
  String.intercalate "\n" (roots.flatMap (display_root se maxd))

/-! ### The `read_files` walk -/

/-- The depth test of the `os.walk` loop:
`root[len(path):].count(os.path.sep) >= max_depth` skips the files of
the current directory (`continue`), without stopping the descent. -/
def walk_depth_ok (maxd : Option Nat) (base root : String) : Bool :=
  match maxd with
  | some m => decide (countSlash (strDrop root base.data.length) < m)
  | none => true

/-- The `for file in files` body of one `os.walk` triple: each file of
`root` passes through `_should_exclude` individually. -/
def dir_files (se : String → Bool) (root : String) (children : List FSNode) : List PFile :=
  children.flatMap fun c =>
    match c with
    | .file n b =>
      let file_path := root ++ "/" ++ n
      if se file_path then [] else [⟨file_path, b⟩]
    | .dir _ _ => []

/-- Python `os.walk(path)` as used by `read_files`, fuel-indexed (the wrapper
supplies ample fuel).  Top-down traversal: the files of `root` (gated
by the depth test) in listing order, then each subdirectory in order —
where a subdirectory failing `_should_exclude` is pruned in place and
never descended into. -/
def walk_collectF (se : String → Bool) (maxd : Option Nat) (base : String) :
    Nat → String → List FSNode → List PFile
  | 0, _, _ => []
  | fuel+1, root, children =>
    (if walk_depth_ok maxd base root then dir_files se root children else [])
    ++ children.flatMap fun c =>
      match c with
      | .dir n cs =>
        let sub := root ++ "/" ++ n
        if se sub then [] else walk_collectF se maxd base fuel sub cs
      | .file _ _ => []

/-- The walk of one directory root `path`: note that `path` itself is
never tested against the exclusion patterns. -/
def walk_collect (se : String → Bool) (maxd : Option Nat) (path : String)
    (children : List FSNode) : List PFile :=
  walk_collectF se maxd path (fsListSize children + 1) path children

/-- The path-flattening loop of `read_files`: a file root is queued
unless excluded, a directory root is walked. -/
def collect_root (se : String → Bool) (maxd : Option Nat) : RootPath → List PFile
  | .file p b => if se p then [] else [⟨p, b⟩]
  | .dir p cs => walk_collect se maxd p cs

/-! ### The `read_files` processing loop -/

/-- The mutable state `read_files` accumulates: the `output` chunk
list and the reader's `total_length`, `processed_files` and
`skipped_files` fields. -/
structure ProcAcc where
  output : List String
  total_length : Nat
  processed_files : List String
  skipped_files : List (String × String)
deriving DecidableEq, Repr

/-- The skip reason `f"File too large (>{self.max_file_size} bytes)"`. -/
def file_too_large (max_file_size : Nat) : String :=
  "File too large (>" ++ toString max_file_size ++ " bytes)"

/-- The marker `f"\n[WARNING: Total content exceeded {self.input_limit}
characters]"`. -/
def warning_line (input_limit : Nat) : String :=
  "\n[WARNING: Total content exceeded " ++ toString input_limit ++ " characters]"

/-- The `for file_path in all_files_to_process` loop of `read_files`:
binary files are skipped with reason `"Binary file"`; then the file is
opened and decoded (the fallback decode uses `errors='replace'` and
never raises, so the only failures are the recorded exceptions);
oversized decoded content is skipped with the size reason; otherwise
the path is recorded as processed, the running total grows by the
content length, a `\n//<path>` header and the content are appended —
and if the total now exceeds `input_limit`, the warning marker is
appended and the loop breaks, leaving the remaining files untouched. -/
def process_files (input_limit max_file_size : Nat) : List PFile → ProcAcc → ProcAcc
  | [], acc => acc
  | f :: rest, acc =>
    if is_binary_file f.blob then
      process_files input_limit max_file_size rest
        { acc with skipped_files := acc.skipped_files ++ [(f.path, "Binary file")] }
    else
      match f.blob.read with
      | .ok content =>
        if content.length > max_file_size then
          process_files input_limit max_file_size rest
            { acc with skipped_files :=
                acc.skipped_files ++ [(f.path, file_too_large max_file_size)] }
        else
          let acc2 : ProcAcc :=
            { output := acc.output ++ ["\n//" ++ f.path, content]
              total_length := acc.total_length + content.length
              processed_files := acc.processed_files ++ [f.path]
              skipped_files := acc.skipped_files }
          if acc2.total_length > input_limit then
            { acc2 with output := acc2.output ++ [warning_line input_limit] }
          else
            process_files input_limit max_file_size rest acc2
      | .permError =>
        process_files input_limit max_file_size rest
          { acc with skipped_files := acc.skipped_files ++ [(f.path, "Permission Error")] }
      | .ioError d =>
        process_files input_limit max_file_size rest
          { acc with skipped_files := acc.skipped_files ++ [(f.path, "IO Error: " ++ d)] }
      | .unexpectedError d =>
        process_files input_limit max_file_size rest
          { acc with skipped_files := acc.skipped_files ++ [(f.path, "Unexpected Error: " ++ d)] }

/-- A `ProjectContextReader` instance: its two configuration limits
and its last-run summary fields. -/
structure Reader where
  input_limit : Nat
  max_file_size : Nat
  total_length : Nat
  processed_files : List String
  skipped_files : List (String × String)
deriving DecidableEq, Repr

/-- The state of the accumulators right after the reset at the top of
`read_files` (`self.total_length = 0` etc.). -/
def emptyAcc : ProcAcc := ⟨[], 0, [], []⟩

/-- The method `read_files(paths, exclude_patterns, max_depth)`: resets the
summary fields, flattens the roots into `all_files_to_process`, runs
the processing loop, and returns the joined output together with the
reader's updated state.  The printed summary is a side channel and is
not part of the returned value. -/
def read_files (isDirPat : String → Bool) (normPat : String → String) (r : Reader)
    (roots : List RootPath) (exclude_patterns : List String) (maxd : Option Nat) :
    String × Reader :=
  let se := fun p => should_exclude isDirPat normPat p exclude_patterns
  let all_files_to_process := roots.flatMap (collect_root se maxd)
  let res := process_files r.input_limit r.max_file_size all_files_to_process emptyAcc
  (String.intercalate "\n" res.output,
   { r with total_length := res.total_length,
            processed_files := res.processed_files,
            skipped_files := res.skipped_files })

/-! ### Auxiliary definitions for the statements below -/

/-- Replace the listing of every subdirectory of `parent` that fails
`_should_exclude` by the empty listing.  Both traversals are invariant
under this pruning — the formal content of "an excluded directory is
never descended into". -/
def prune_excluded (se : String → Bool) (parent : String) : FSNode → FSNode
  | .file n b => .file n b
  | .dir n cs => if se (parent ++ "/" ++ n) then .dir n [] else .dir n cs

/-- A live file system where no exclusion pattern names an existing
path: `os.path.isdir(pattern)` is false and pattern normalisation is
the identity. -/
def noDirPat : String → Bool := fun _ => false

/-- A plain-text file blob whose decode succeeds with content `c`. -/
def textBlob (c : String) : FileBlob :=
  { mime := some "text/plain", chunk := [], binErr := false, read := .ok c }

/-- A 40-character content, for the `input_limit=50` scenario. -/
def c40 : String := ⟨List.replicate 40 'x'⟩

/-- The scenario listing for the tree-connector counterexample: a text
file and a directory `zz` that sorts last. -/
def fsC6 : List FSNode := [.file "a.txt" (textBlob "t"), .dir "zz" []]

/-- The scenario listing `a/b/c.txt` for the `max_depth=1` claim. -/
def fsC7 : List FSNode := [.dir "a" [.dir "b" [.file "c.txt" (textBlob "hi")]]]

/-! ## Helper lemmas -/

theorem flatMap_congr {α β : Type} {l : List α} {f g : α → List β}
    (h : ∀ a ∈ l, f a = g a) : l.flatMap f = l.flatMap g := by
  induction l with
  | nil => rfl
  | cons x xs ih =>
    simp only [List.flatMap_cons]
    rw [h x (List.mem_cons_self x xs), ih (fun a ha => h a (List.mem_cons_of_mem x ha))]

/-- Every path recorded as processed by the loop comes from a
non-binary input file (or was already in the accumulator). -/
theorem procMem {il mfs : Nat} {files : List PFile} {acc : ProcAcc} {p : String}
    (h : p ∈ (process_files il mfs files acc).processed_files) :
    p ∈ acc.processed_files ∨ ∃ f ∈ files, f.path = p ∧ is_binary_file f.blob = false := by
  induction files generalizing acc with
  | nil => exact Or.inl h
  | cons f rest ih =>
    simp only [process_files] at h
    split at h
    next hb =>
      rcases ih h with h1 | ⟨g, hg, hgp⟩
      · exact Or.inl h1
      · exact Or.inr ⟨g, List.mem_cons_of_mem f hg, hgp⟩
    next hb =>
      have hb2 : is_binary_file f.blob = false := by simpa using hb
      split at h
      next content hr =>
        split at h
        next hs =>
          rcases ih h with h1 | ⟨g, hg, hgp⟩
          · exact Or.inl h1
          · exact Or.inr ⟨g, List.mem_cons_of_mem f hg, hgp⟩
        next hs =>
          split at h
          next ht =>
            simp only [List.mem_append, List.mem_singleton] at h
            rcases h with h1 | h1
            · exact Or.inl h1
            · exact Or.inr ⟨f, List.mem_cons_self f rest, h1.symm, hb2⟩
          next ht =>
            rcases ih h with h1 | ⟨g, hg, hgp⟩
            · simp only [List.mem_append, List.mem_singleton] at h1
              rcases h1 with h2 | h2
              · exact Or.inl h2
              · exact Or.inr ⟨f, List.mem_cons_self f rest, h2.symm, hb2⟩
            · exact Or.inr ⟨g, List.mem_cons_of_mem f hg, hgp⟩
      next hr =>
        rcases ih h with h1 | ⟨g, hg, hgp⟩
        · exact Or.inl h1
        · exact Or.inr ⟨g, List.mem_cons_of_mem f hg, hgp⟩
      next d hr =>
        rcases ih h with h1 | ⟨g, hg, hgp⟩
        · exact Or.inl h1
        · exact Or.inr ⟨g, List.mem_cons_of_mem f hg, hgp⟩
      next d hr =>
        rcases ih h with h1 | ⟨g, hg, hgp⟩
        · exact Or.inl h1
        · exact Or.inr ⟨g, List.mem_cons_of_mem f hg, hgp⟩

/-- Every skip record the loop adds names an input file and carries
one of the five reasons of the error taxonomy. -/
theorem skipMem {il mfs : Nat} {files : List PFile} {acc : ProcAcc} {pr : String × String}
    (h : pr ∈ (process_files il mfs files acc).skipped_files) :
    pr ∈ acc.skipped_files ∨
      ((∃ f ∈ files, f.path = pr.1) ∧
        (pr.2 = "Binary file" ∨ pr.2 = file_too_large mfs ∨ pr.2 = "Permission Error" ∨
         (∃ d, pr.2 = "IO Error: " ++ d) ∨ ∃ d, pr.2 = "Unexpected Error: " ++ d)) := by
  induction files generalizing acc with
  | nil => exact Or.inl h
  | cons f rest ih =>
    simp only [process_files] at h
    split at h
    next hb =>
      rcases ih h with h1 | ⟨⟨g, hg, hgp⟩, hrsn⟩
      · simp only [List.mem_append, List.mem_singleton] at h1
        rcases h1 with h2 | h2
        · exact Or.inl h2
        · subst h2
          exact Or.inr ⟨⟨f, List.mem_cons_self f rest, rfl⟩, Or.inl rfl⟩
      · exact Or.inr ⟨⟨g, List.mem_cons_of_mem f hg, hgp⟩, hrsn⟩
    next hb =>
      split at h
      next content hr =>
        split at h
        next hs =>
          rcases ih h with h1 | ⟨⟨g, hg, hgp⟩, hrsn⟩
          · simp only [List.mem_append, List.mem_singleton] at h1
            rcases h1 with h2 | h2
            · exact Or.inl h2
            · subst h2
              exact Or.inr ⟨⟨f, List.mem_cons_self f rest, rfl⟩, Or.inr (Or.inl rfl)⟩
          · exact Or.inr ⟨⟨g, List.mem_cons_of_mem f hg, hgp⟩, hrsn⟩
        next hs =>
          split at h
          next ht => exact Or.inl h
          next ht =>
            rcases ih h with h1 | ⟨⟨g, hg, hgp⟩, hrsn⟩
            · exact Or.inl h1
            · exact Or.inr ⟨⟨g, List.mem_cons_of_mem f hg, hgp⟩, hrsn⟩
      next hr =>
        rcases ih h with h1 | ⟨⟨g, hg, hgp⟩, hrsn⟩
        · simp only [List.mem_append, List.mem_singleton] at h1
          rcases h1 with h2 | h2
          · exact Or.inl h2
          · subst h2
            exact Or.inr ⟨⟨f, List.mem_cons_self f rest, rfl⟩, Or.inr (Or.inr (Or.inl rfl))⟩
        · exact Or.inr ⟨⟨g, List.mem_cons_of_mem f hg, hgp⟩, hrsn⟩
      next d hr =>
        rcases ih h with h1 | ⟨⟨g, hg, hgp⟩, hrsn⟩
        · simp only [List.mem_append, List.mem_singleton] at h1
          rcases h1 with h2 | h2
          · exact Or.inl h2
          · subst h2
            exact Or.inr ⟨⟨f, List.mem_cons_self f rest, rfl⟩,
              Or.inr (Or.inr (Or.inr (Or.inl ⟨d, rfl⟩)))⟩
        · exact Or.inr ⟨⟨g, List.mem_cons_of_mem f hg, hgp⟩, hrsn⟩
      next d hr =>
        rcases ih h with h1 | ⟨⟨g, hg, hgp⟩, hrsn⟩
        · simp only [List.mem_append, List.mem_singleton] at h1
          rcases h1 with h2 | h2
          · exact Or.inl h2
          · subst h2
            exact Or.inr ⟨⟨f, List.mem_cons_self f rest, rfl⟩,
              Or.inr (Or.inr (Or.inr (Or.inr ⟨d, rfl⟩)))⟩
        · exact Or.inr ⟨⟨g, List.mem_cons_of_mem f hg, hgp⟩, hrsn⟩

/-- When no input file has path `q`, the loop adds no skip record with
path `q`. -/
theorem skipFilterNe {il mfs : Nat} {files : List PFile} {acc : ProcAcc} {q : String}
    (hne : ∀ g ∈ files, g.path ≠ q) :
    ((process_files il mfs files acc).skipped_files.filter (fun pr => pr.1 == q)) =
      acc.skipped_files.filter (fun pr => pr.1 == q) := by
  induction files generalizing acc with
  | nil => rfl
  | cons f rest ih =>
    have hf : (f.path == q) = false :=
      beq_eq_false_iff_ne.mpr (hne f (List.mem_cons_self f rest))
    have hrest : ∀ g ∈ rest, g.path ≠ q := fun g hg => hne g (List.mem_cons_of_mem f hg)
    simp only [process_files]
    split
    next hb => rw [ih hrest]; simp [List.filter_append, hf]
    next hb =>
      split
      next content hr =>
        split
        next hs => rw [ih hrest]; simp [List.filter_append, hf]
        next hs =>
          split
          next ht => rfl
          next ht => rw [ih hrest]
      next hr => rw [ih hrest]; simp [List.filter_append, hf]
      next d hr => rw [ih hrest]; simp [List.filter_append, hf]
      next d hr => rw [ih hrest]; simp [List.filter_append, hf]

/-- Every file collected by the `os.walk` traversal has individually
passed the exclusion test. -/
theorem walkSe {se : String → Bool} {maxd : Option Nat} {base : String} {fuel : Nat}
    {root : String} {children : List FSNode} {pf : PFile}
    (h : pf ∈ walk_collectF se maxd base fuel root children) : se pf.path = false := by
  induction fuel generalizing root children with
  | zero => simp [walk_collectF] at h
  | succ fuel ih =>
    simp only [walk_collectF, List.mem_append] at h
    rcases h with h | h
    · split at h
      next hd =>
        simp only [dir_files, List.mem_flatMap] at h
        rcases h with ⟨c, hc, hpf⟩
        cases c with
        | file n b =>
          simp only at hpf
          split at hpf
          next hse => simp at hpf
          next hse =>
            simp only [List.mem_singleton] at hpf
            subst hpf
            simpa using hse
        | dir n cs => simp at hpf
      next hd => simp at h
    · simp only [List.mem_flatMap] at h
      rcases h with ⟨c, hc, hpf⟩
      cases c with
      | file n b => simp at hpf
      | dir n cs =>
        simp only at hpf
        split at hpf
        next hse => simp at hpf
        next hse => exact ih hpf

/-- Every file queued by the root-flattening loop has individually
passed the exclusion test (directory roots are walked, file roots are
tested directly). -/
theorem collectSe {se : String → Bool} {maxd : Option Nat} {root : RootPath} {pf : PFile}
    (h : pf ∈ collect_root se maxd root) : se pf.path = false := by
  cases root with
  | file p b =>
    simp only [collect_root] at h
    split at h
    next hse => simp at h
    next hse =>
      simp only [List.mem_singleton] at h
      subst h
      simpa using hse
  | dir p cs =>
    simp only [collect_root, walk_collect] at h
    exact walkSe h


/-- Pruning preserves entry names. -/
theorem nodeName_prune (se : String → Bool) (parent : String) (x : FSNode) :
    nodeName (prune_excluded se parent x) = nodeName x := by
  cases x with
  | file n b => rfl
  | dir n cs =>
    simp only [prune_excluded]
    split <;> rfl

/-- Insertion sort commutes with a name-preserving transformation of
the entries. -/
theorem insertNode_map (φ : FSNode → FSNode) (hφ : ∀ x, nodeName (φ x) = nodeName x)
    (e : FSNode) (l : List FSNode) :
    insertNode (φ e) (l.map φ) = (insertNode e l).map φ := by
  induction l with
  | nil => rfl
  | cons x xs ih =>
    simp only [List.map_cons, insertNode, hφ]
    by_cases h : strLt (nodeName x) (nodeName e) = true
    · simp [h, ih]
    · simp [h]

/-- Sorting commutes with a name-preserving transformation of the
entries. -/
theorem sortNodes_map (φ : FSNode → FSNode) (hφ : ∀ x, nodeName (φ x) = nodeName x) :
    ∀ l : List FSNode, sortNodes (l.map φ) = (sortNodes l).map φ := by
  intro l
  induction l with
  | nil => rfl
  | cons x xs ih => simp only [List.map_cons, sortNodes, ih, insertNode_map φ hφ]

/-- Every line `build_tree` produces at prefix `pre` extends `pre` —
descendants of a sibling carry that sibling's accumulated prefix. -/
theorem build_treeF_line_pre {se : String → Bool} {maxd : Option Nat} {fuel : Nat}
    {directory pre : String} {depth : Nat} {children : List FSNode} {line : String}
    (h : line ∈ build_treeF se maxd fuel directory pre depth children) :
    ∃ s, line = pre ++ s := by
  induction fuel generalizing directory pre depth children with
  | zero => simp [build_treeF] at h
  | succ fuel ih =>
    simp only [build_treeF] at h
    split at h
    next => simp at h
    next =>
      simp only [List.mem_flatMap] at h
      rcases h with ⟨ie, hie, hline⟩
      obtain ⟨index, entry⟩ := ie
      simp only at hline
      split at hline
      next hse => simp at hline
      next hse =>
        simp only [List.mem_cons] at hline
        rcases hline with h1 | h1
        · exact ⟨_, by rw [h1, String.append_assoc, String.append_assoc]⟩
        · cases entry with
          | file n b => simp at h1
          | dir n cs =>
            simp only at h1
            rcases ih h1 with ⟨s, hsl⟩
            exact ⟨_, by rw [hsl, String.append_assoc]⟩

/-- The renderer `build_tree` never descends into an excluded directory: emptying
the listing of every excluded subdirectory leaves its output
unchanged. -/
theorem build_treeF_prune (se : String → Bool) (maxd : Option Nat) (fuel : Nat)
    (directory pre : String) (depth : Nat) (children : List FSNode) :
    build_treeF se maxd fuel directory pre depth children =
      build_treeF se maxd fuel directory pre depth
        (children.map (prune_excluded se directory)) := by
  cases fuel with
  | zero => rfl
  | succ fuel =>
    simp only [build_treeF]
    split
    next => rfl
    next =>
      rw [sortNodes_map (prune_excluded se directory) (nodeName_prune se directory),
        List.enum_map, List.flatMap_map, List.length_map]
      apply flatMap_congr
      intro a ha
      obtain ⟨index, entry⟩ := a
      cases entry with
      | file n b => rfl
      | dir n cs =>
        simp only [Prod.map, id, prune_excluded, nodeName]
        by_cases hse : se (directory ++ "/" ++ n) = true
        · simp [hse]
        · simp [hse]

/-- The `os.walk` traversal never descends into a pruned directory:
emptying the listing of every excluded subdirectory leaves the
collected files unchanged. -/
theorem walk_collectF_prune (se : String → Bool) (maxd : Option Nat) (base : String)
    (fuel : Nat) (root : String) (children : List FSNode) :
    walk_collectF se maxd base fuel root children =
      walk_collectF se maxd base fuel root (children.map (prune_excluded se root)) := by
  cases fuel with
  | zero => rfl
  | succ fuel =>
    simp only [walk_collectF]
    have hdf : dir_files se root (children.map (prune_excluded se root)) =
        dir_files se root children := by
      simp only [dir_files, List.flatMap_map]
      apply flatMap_congr
      intro c hc
      cases c with
      | file n b => rfl
      | dir n cs =>
        simp only [prune_excluded]
        by_cases hse : se (root ++ "/" ++ n) = true
        · simp [hse]
        · simp [hse]
    rw [hdf, List.flatMap_map]
    congr 1
    apply flatMap_congr
    intro c hc
    cases c with
    | file n b => rfl
    | dir n cs =>
      simp only [prune_excluded]
      by_cases hse : se (root ++ "/" ++ n) = true
      · simp [hse]
      · simp [hse]


/-- The entry that is last in the sorted listing is rendered with the
`└── ` connector, and every line of its subtree continues the prefix
with four spaces. -/
theorem tree_last_entry (se : String → Bool) (maxd : Option Nat) (fuel : Nat)
    (directory pre : String) (depth : Nat) (children : List FSNode)
    (l : List FSNode) (e : FSNode)
    (hl : sortNodes children = l ++ [e])
    (hse : se (directory ++ "/" ++ nodeName e) = false)
    (hstop : tree_stop maxd depth = false) :
    ∃ front sub, build_treeF se maxd (fuel+1) directory pre depth children =
      front ++ (pre ++ "└── " ++ nodeName e ++ (if nodeIsDir e then "/" else "")) :: sub ∧
      ∀ line ∈ sub, ∃ s, line = pre ++ "    " ++ s := by
  simp only [build_treeF, hstop, Bool.false_eq_true, if_false, hl]
  rw [List.enum_append, List.flatMap_append]
  simp only [List.enumFrom, List.flatMap_cons, List.flatMap_nil, List.append_nil,
    hse, Bool.false_eq_true, if_false, List.length_append, List.length_cons, List.length_nil,
    Nat.add_sub_cancel, beq_self_eq_true, if_true]
  refine ⟨_, _, rfl, ?_⟩
  intro line hline
  cases e with
  | file n b => simp at hline
  | dir n cs =>
    simp only at hline
    rcases build_treeF_line_pre hline with ⟨s, hs⟩
    exact ⟨_, by rw [hs, String.append_assoc]⟩

/-- An entry that is not last in the sorted listing is rendered with
the `├── ` connector, and every line of its subtree continues the
prefix with `│   `. -/
theorem tree_mid_entry (se : String → Bool) (maxd : Option Nat) (fuel : Nat)
    (directory pre : String) (depth : Nat) (children : List FSNode)
    (l1 : List FSNode) (e : FSNode) (l2 : List FSNode)
    (hl : sortNodes children = l1 ++ e :: l2) (hne : l2 ≠ [])
    (hse : se (directory ++ "/" ++ nodeName e) = false)
    (hstop : tree_stop maxd depth = false) :
    ∃ front sub tail, build_treeF se maxd (fuel+1) directory pre depth children =
      front ++ (pre ++ "├── " ++ nodeName e ++ (if nodeIsDir e then "/" else "")) ::
        (sub ++ tail) ∧
      ∀ line ∈ sub, ∃ s, line = pre ++ "│   " ++ s := by
  have hlen : (l1.length == (l1 ++ e :: l2).length - 1) = false := by
    have h2 : 0 < l2.length := List.length_pos.mpr hne
    simp only [List.length_append, List.length_cons]
    rw [beq_eq_false_iff_ne]
    omega
  simp only [build_treeF, hstop, Bool.false_eq_true, if_false, hl]
  rw [List.enum_append, List.enumFrom_cons, List.flatMap_append, List.flatMap_cons]
  simp only [hse, Bool.false_eq_true, if_false, hlen, List.cons_append]
  refine ⟨_, _, _, rfl, ?_⟩
  intro line hline
  cases e with
  | file n b => simp at hline
  | dir n cs =>
    simp only at hline
    rcases build_treeF_line_pre hline with ⟨s, hs⟩
    exact ⟨_, by rw [hs, String.append_assoc]⟩

/-! ## Claims -/

/-- C4: a file whose decoded content length exceeds `max_file_size` is
recorded as skipped with the size-limit reason and the loop continues
with only that skip record appended: none of its content (not even a
truncated part) enters the output and the running total is unchanged. -/
theorem c4_oversized_file_skipped (il mfs : Nat) (f : PFile) (rest : List PFile)
    (acc : ProcAcc) (c : String) (hb : is_binary_file f.blob = false)
    (hr : f.blob.read = .ok c) (hs : c.length > mfs) :
    process_files il mfs (f :: rest) acc =
      process_files il mfs rest
        { acc with skipped_files := acc.skipped_files ++ [(f.path, file_too_large mfs)] } := by
  simp [process_files, hb, hr, hs]

/-- Witness for C4 at `max_file_size = 5` and a six-character file. -/
theorem c4_witness :
    is_binary_file (textBlob "abcdef") = false ∧
    (textBlob "abcdef").read = .ok "abcdef" ∧
    ("abcdef" : String).length > 5 ∧
    process_files 50000 5 [⟨"/a/big.txt", textBlob "abcdef"⟩] emptyAcc =
      process_files 50000 5 []
        { emptyAcc with
            skipped_files := emptyAcc.skipped_files ++ [("/a/big.txt", file_too_large 5)] } :=
  ⟨by decide, by decide, by decide,
   c4_oversized_file_skipped 50000 5 ⟨"/a/big.txt", textBlob "abcdef"⟩ [] emptyAcc "abcdef"
     (by decide) (by decide) (by decide)⟩

/-- C3: when the processing loop reaches a file the Binary Detector
classifies binary, it appends exactly the skip record
`(path, "Binary file")` and moves on — no header, no content, no
processed record for it; and every path `read_files` reports as
processed comes from a queued file the detector classified
non-binary. -/
theorem c3_binary_files_skipped :
    (∀ (il mfs : Nat) (f : PFile) (rest : List PFile) (acc : ProcAcc),
      is_binary_file f.blob = true →
      process_files il mfs (f :: rest) acc =
        process_files il mfs rest
          { acc with skipped_files := acc.skipped_files ++ [(f.path, "Binary file")] }) ∧
    (∀ (idp : String → Bool) (np : String → String) (r : Reader) (roots : List RootPath)
      (pats : List String) (maxd : Option Nat) (p : String),
      p ∈ (read_files idp np r roots pats maxd).2.processed_files →
      ∃ pf ∈ roots.flatMap (collect_root (fun q => should_exclude idp np q pats) maxd),
        pf.path = p ∧ is_binary_file pf.blob = false) := by
  constructor
  · intro il mfs f rest acc hb
    simp [process_files, hb]
  · intro idp np r roots pats maxd p hp
    simp only [read_files] at hp
    rcases procMem hp with h1 | h2
    · simp [emptyAcc] at h1
    · exact h2

/-- Witness for C3: a PNG file is skipped as binary, and in a concrete
run the processed path traces back to a non-binary queued file. -/
theorem c3_witness :
    is_binary_file (FileBlob.mk (some "image/png") [] false (.ok "PNG")) = true ∧
    process_files 50000 1048576
        [⟨"/a/pic.png", ⟨some "image/png", [], false, .ok "PNG"⟩⟩] emptyAcc =
      process_files 50000 1048576 []
        { emptyAcc with
            skipped_files := emptyAcc.skipped_files ++ [("/a/pic.png", "Binary file")] } ∧
    ("/a/f1.txt" ∈ (read_files noDirPat id ⟨50000, 1048576, 0, [], []⟩
        [.file "/a/f1.txt" (textBlob "hi")] [] none).2.processed_files) ∧
    ∃ pf ∈ ([RootPath.file "/a/f1.txt" (textBlob "hi")].flatMap
        (collect_root (fun q => should_exclude noDirPat id q []) none)),
      pf.path = "/a/f1.txt" ∧ is_binary_file pf.blob = false :=
  ⟨by decide,
   c3_binary_files_skipped.1 50000 1048576
     ⟨"/a/pic.png", ⟨some "image/png", [], false, .ok "PNG"⟩⟩ [] emptyAcc (by decide),
   by decide,
   c3_binary_files_skipped.2 noDirPat id ⟨50000, 1048576, 0, [], []⟩
     [.file "/a/f1.txt" (textBlob "hi")] [] none "/a/f1.txt" (by decide)⟩

/-- C5: each per-file failure (permission, I/O, unexpected) is caught
and converted into a skip record after which the loop continues, and
every skip reason `read_files` ever records has one of the five
taxonomy shapes. -/
theorem c5_error_taxonomy :
    (∀ (il mfs : Nat) (f : PFile) (rest : List PFile) (acc : ProcAcc),
      f.blob.read = .permError → is_binary_file f.blob = false →
      process_files il mfs (f :: rest) acc =
        process_files il mfs rest
          { acc with skipped_files := acc.skipped_files ++ [(f.path, "Permission Error")] }) ∧
    (∀ (il mfs : Nat) (f : PFile) (rest : List PFile) (acc : ProcAcc) (d : String),
      f.blob.read = .ioError d → is_binary_file f.blob = false →
      process_files il mfs (f :: rest) acc =
        process_files il mfs rest
          { acc with skipped_files := acc.skipped_files ++ [(f.path, "IO Error: " ++ d)] }) ∧
    (∀ (il mfs : Nat) (f : PFile) (rest : List PFile) (acc : ProcAcc) (d : String),
      f.blob.read = .unexpectedError d → is_binary_file f.blob = false →
      process_files il mfs (f :: rest) acc =
        process_files il mfs rest
          { acc with
              skipped_files := acc.skipped_files ++ [(f.path, "Unexpected Error: " ++ d)] }) ∧
    (∀ (idp : String → Bool) (np : String → String) (r : Reader) (roots : List RootPath)
      (pats : List String) (maxd : Option Nat) (p reason : String),
      (p, reason) ∈ (read_files idp np r roots pats maxd).2.skipped_files →
      reason = "Binary file" ∨ reason = file_too_large r.max_file_size ∨
      reason = "Permission Error" ∨ (∃ d, reason = "IO Error: " ++ d) ∨
      ∃ d, reason = "Unexpected Error: " ++ d) := by
  refine ⟨?_, ?_, ?_, ?_⟩
  · intro il mfs f rest acc hr hb
    simp [process_files, hb, hr]
  · intro il mfs f rest acc d hr hb
    simp [process_files, hb, hr]
  · intro il mfs f rest acc d hr hb
    simp [process_files, hb, hr]
  · intro idp np r roots pats maxd p reason hp
    simp only [read_files] at hp
    rcases skipMem hp with h1 | ⟨_, hrsn⟩
    · simp [emptyAcc] at h1
    · exact hrsn

/-- Witness for C5: a permission failure becomes a skip record, and in
a concrete run the recorded reason falls under the taxonomy. -/
theorem c5_witness :
    (FileBlob.mk (some "text/plain") [] false .permError).read = .permError ∧
    process_files 50000 1048576
        [⟨"/a/secret.txt", ⟨some "text/plain", [], false, .permError⟩⟩] emptyAcc =
      process_files 50000 1048576 []
        { emptyAcc with
            skipped_files := emptyAcc.skipped_files ++ [("/a/secret.txt", "Permission Error")] } ∧
    (("/a/secret.txt", "Permission Error") ∈
      (read_files noDirPat id ⟨50000, 1048576, 0, [], []⟩
        [.file "/a/secret.txt" ⟨some "text/plain", [], false, .permError⟩] [] none).2.skipped_files) ∧
    ("Permission Error" = "Binary file" ∨ "Permission Error" = file_too_large 1048576 ∨
      "Permission Error" = "Permission Error" ∨
      (∃ d, "Permission Error" = "IO Error: " ++ d) ∨
      ∃ d, "Permission Error" = "Unexpected Error: " ++ d) :=
  ⟨by decide,
   c5_error_taxonomy.1 50000 1048576
     ⟨"/a/secret.txt", ⟨some "text/plain", [], false, .permError⟩⟩ [] emptyAcc
     (by decide) (by decide),
   by decide,
   c5_error_taxonomy.2.2.2 noDirPat id ⟨50000, 1048576, 0, [], []⟩
     [.file "/a/secret.txt" ⟨some "text/plain", [], false, .permError⟩] [] none
     "/a/secret.txt" "Permission Error" (by decide)⟩

/-- C10: for a file both classified binary and oversized, the binary
check comes first — the loop appends the `"Binary file"` record without
consulting the size — and (when no other queued file shares its path)
the whole run records exactly that one skip record for the path, never
a size reason. -/
theorem c10_binary_check_precedes_size (il mfs : Nat) (f : PFile) (rest : List PFile)
    (acc : ProcAcc) (c : String) (hb : is_binary_file f.blob = true)
    (hr : f.blob.read = .ok c) (hs : c.length > mfs)
    (hu : ∀ g ∈ rest, g.path ≠ f.path) :
    process_files il mfs (f :: rest) acc =
      process_files il mfs rest
        { acc with skipped_files := acc.skipped_files ++ [(f.path, "Binary file")] } ∧
    (process_files il mfs (f :: rest) emptyAcc).skipped_files.filter
        (fun pr => pr.1 == f.path) = [(f.path, "Binary file")] := by
  constructor
  · simp [process_files, hb]
  · have h1 : process_files il mfs (f :: rest) emptyAcc =
        process_files il mfs rest
          { emptyAcc with skipped_files := emptyAcc.skipped_files ++ [(f.path, "Binary file")] } := by
      simp [process_files, hb]
    rw [h1, skipFilterNe hu]
    simp [emptyAcc]

/-- Witness for C10: a 7-byte PNG with `max_file_size = 5`. -/
theorem c10_witness :
    is_binary_file (FileBlob.mk (some "image/png") [] false (.ok "PNGDATA")) = true ∧
    (FileBlob.mk (some "image/png") [] false (.ok "PNGDATA")).read = .ok "PNGDATA" ∧
    ("PNGDATA" : String).length > 5 ∧
    (process_files 50000 5
        [⟨"/a/pic.png", ⟨some "image/png", [], false, .ok "PNGDATA"⟩⟩,
         ⟨"/a/other.txt", textBlob "hi"⟩] emptyAcc).skipped_files.filter
        (fun pr => pr.1 == "/a/pic.png") = [("/a/pic.png", "Binary file")] :=
  ⟨by decide, by decide, by decide,
   (c10_binary_check_precedes_size 50000 5
     ⟨"/a/pic.png", ⟨some "image/png", [], false, .ok "PNGDATA"⟩⟩
     [⟨"/a/other.txt", textBlob "hi"⟩] emptyAcc "PNGDATA"
     (by decide) (by decide) (by decide) (by decide)).2⟩

/-- C2 (amended): once appending a file's content pushes the running
total over `input_limit`, a single warning marker naming the limit is
appended and the loop breaks — the remaining files are neither read
nor recorded, the final state being independent of them.  In the
`input_limit=50` scenario with two 40-character files this break
happens only after the SECOND file, since the first leaves the total
at 40 ≤ 50 (see the counterexample). -/
theorem c2_limit_break (il mfs : Nat) (f : PFile) (rest : List PFile) (acc : ProcAcc)
    (c : String) (hb : is_binary_file f.blob = false) (hr : f.blob.read = .ok c)
    (hs : ¬ c.length > mfs) (ht : acc.total_length + c.length > il) :
    process_files il mfs (f :: rest) acc =
      { output := acc.output ++ ["\n//" ++ f.path, c] ++ [warning_line il],
        total_length := acc.total_length + c.length,
        processed_files := acc.processed_files ++ [f.path],
        skipped_files := acc.skipped_files } := by
  simp [process_files, hb, hr, hs, ht]

/-- Counterexample for C2 as stated: with `input_limit=50` and two
40-character files, the second file IS read, included in the output
and listed in `processed_files`; the warning follows its content. -/
theorem c2_cex :
    (read_files noDirPat id ⟨50, 1048576, 0, [], []⟩
        [.file "/a/f1.txt" (textBlob c40), .file "/a/f2.txt" (textBlob c40)]
        [] none).2.processed_files = ["/a/f1.txt", "/a/f2.txt"] ∧
    (read_files noDirPat id ⟨50, 1048576, 0, [], []⟩
        [.file "/a/f1.txt" (textBlob c40), .file "/a/f2.txt" (textBlob c40)]
        [] none).1 =
      "\n///a/f1.txt\n" ++ c40 ++ "\n\n///a/f2.txt\n" ++ c40 ++
        "\n\n[WARNING: Total content exceeded 50 characters]" := by
  constructor
  · decide
  · decide

/-- Witness for C2 (amended): the break equation applied right after
the first 40-character file, where a further 40 characters exceed 50. -/
theorem c2_witness :
    is_binary_file (textBlob c40) = false ∧
    (textBlob c40).read = .ok c40 ∧
    ¬ c40.length > 1048576 ∧
    (40 : Nat) + c40.length > 50 ∧
    process_files 50 1048576
        [⟨"/a/f2.txt", textBlob c40⟩, ⟨"/a/f3.txt", textBlob c40⟩]
        ⟨["\n///a/f1.txt", c40], 40, ["/a/f1.txt"], []⟩ =
      { output := ["\n///a/f1.txt", c40] ++ ["\n//" ++ "/a/f2.txt", c40] ++ [warning_line 50],
        total_length := 40 + c40.length,
        processed_files := ["/a/f1.txt"] ++ ["/a/f2.txt"],
        skipped_files := [] } :=
  ⟨by decide, by decide, by decide, by decide,
   c2_limit_break 50 1048576 ⟨"/a/f2.txt", textBlob c40⟩ [⟨"/a/f3.txt", textBlob c40⟩]
     ⟨["\n///a/f1.txt", c40], 40, ["/a/f1.txt"], []⟩ c40
     (by decide) (by decide) (by decide) (by decide)⟩

/-- C8: `read_files` resets `total_length`, `processed_files` and
`skipped_files` at the start of every call, so a second call on the
unchanged tree with identical arguments returns the identical string
and leaves the reader in the identical state. -/
theorem c8_read_files_idempotent (idp : String → Bool) (np : String → String) (r : Reader)
    (roots : List RootPath) (pats : List String) (maxd : Option Nat) :
    read_files idp np (read_files idp np r roots pats maxd).2 roots pats maxd =
      read_files idp np r roots pats maxd := by
  rfl

/-- C1: exclusion is subtree-closed and excluded directories are never
descended into.  (i) Whenever an exclusion pattern glob-matches a
directory name, `should_exclude` excludes every path having that
directory as a proper ancestor segment (the ancestor-segment rule);
(ii) `build_tree` and (iii) the `read_files` walk are unchanged when
every excluded subdirectory's listing is emptied — neither ever
descends into an excluded directory; (iv) consequently a path nested
under a matched directory is never processed nor skipped by
`read_files`, at any nesting depth and for any roots. -/
theorem c1_exclusion_subtree_closed :
    (∀ (idp : String → Bool) (np : String → String) (pats : List String) (p d q : String),
      p ∈ pats → fnmatch d (np p) = true → d ∈ (splitSlash q).dropLast →
      should_exclude idp np q pats = true) ∧
    (∀ (se : String → Bool) (maxd : Option Nat) (fuel : Nat) (directory pre : String)
      (depth : Nat) (children : List FSNode),
      build_treeF se maxd fuel directory pre depth children =
        build_treeF se maxd fuel directory pre depth
          (children.map (prune_excluded se directory))) ∧
    (∀ (se : String → Bool) (maxd : Option Nat) (base : String) (fuel : Nat)
      (root : String) (children : List FSNode),
      walk_collectF se maxd base fuel root children =
        walk_collectF se maxd base fuel root (children.map (prune_excluded se root))) ∧
    (∀ (idp : String → Bool) (np : String → String) (r : Reader) (roots : List RootPath)
      (pats : List String) (maxd : Option Nat) (p d q : String),
      p ∈ pats → fnmatch d (np p) = true → d ∈ (splitSlash q).dropLast →
      q ∉ (read_files idp np r roots pats maxd).2.processed_files ∧
      ∀ rr, (q, rr) ∉ (read_files idp np r roots pats maxd).2.skipped_files) := by
  have part1 : ∀ (idp : String → Bool) (np : String → String) (pats : List String)
      (p d q : String), p ∈ pats → fnmatch d (np p) = true →
      d ∈ (splitSlash q).dropLast → should_exclude idp np q pats = true := by
    intro idp np pats p d q hp hm hd
    rcases List.mem_iff_get.mp (List.mem_of_mem_dropLast hd) with ⟨n, hn⟩
    have hgd : (splitSlash q).getD n.1 "" = d := by
      rw [List.getD_eq_getElem _ _ n.2, ← List.get_eq_getElem]
      exact hn
    have hanc : ancestor_match (pats.map np) q = true := by
      simp only [ancestor_match]
      rw [List.any_eq_true]
      refine ⟨n.1, List.mem_range.mpr n.2, ?_⟩
      rw [List.any_eq_true]
      refine ⟨np p, List.mem_map_of_mem np hp, ?_⟩
      rw [hgd, hm]
      simp
    simp only [should_exclude]
    rw [List.any_eq_true]
    exact ⟨np p, List.mem_map_of_mem np hp, by simp [path_matches_pattern, hanc]⟩
  refine ⟨part1, build_treeF_prune, walk_collectF_prune, ?_⟩
  intro idp np r roots pats maxd p d q hp hm hd
  have hq := part1 idp np pats p d q hp hm hd
  constructor
  · intro hmem
    simp only [read_files] at hmem
    rcases procMem hmem with h1 | ⟨g, hg, hgp, _⟩
    · simp [emptyAcc] at h1
    · rcases List.mem_flatMap.mp hg with ⟨rt, hrt, hgc⟩
      have hse := collectSe hgc
      simp only [] at hse
      rw [hgp, hq] at hse
      simp at hse
  · intro rr hmem
    simp only [read_files] at hmem
    rcases skipMem hmem with h1 | ⟨⟨g, hg, hgp⟩, _⟩
    · simp [emptyAcc] at h1
    · rcases List.mem_flatMap.mp hg with ⟨rt, hrt, hgc⟩
      have hse := collectSe hgc
      simp only [] at hse
      rw [show g.path = q from hgp, hq] at hse
      simp at hse

/-- Witness for C1: the pattern `venv` matches the directory segment
`venv` of `/tmp/venv/x.txt`, the path is excluded, and a run over a
tree containing it neither processes nor skips it. -/
theorem c1_witness :
    ("venv" ∈ ["venv"] ∧ fnmatch "venv" (id "venv") = true ∧
      "venv" ∈ (splitSlash "/tmp/venv/x.txt").dropLast) ∧
    should_exclude noDirPat id "/tmp/venv/x.txt" ["venv"] = true ∧
    ("/tmp/venv/x.txt" ∉
      (read_files noDirPat id ⟨50000, 1048576, 0, [], []⟩
        [.dir "/tmp" [.dir "venv" [.file "x.txt" (textBlob "secret")]]]
        ["venv"] none).2.processed_files ∧
      ∀ rr, ("/tmp/venv/x.txt", rr) ∉
        (read_files noDirPat id ⟨50000, 1048576, 0, [], []⟩
          [.dir "/tmp" [.dir "venv" [.file "x.txt" (textBlob "secret")]]]
          ["venv"] none).2.skipped_files) :=
  ⟨⟨by decide, by decide, by decide⟩,
   c1_exclusion_subtree_closed.1 noDirPat id ["venv"] "venv" "venv" "/tmp/venv/x.txt"
     (by decide) (by decide) (by decide),
   c1_exclusion_subtree_closed.2.2.2 noDirPat id ⟨50000, 1048576, 0, [], []⟩
     [.dir "/tmp" [.dir "venv" [.file "x.txt" (textBlob "secret")]]]
     ["venv"] none "venv" "venv" "/tmp/venv/x.txt" (by decide) (by decide) (by decide)⟩

/-- C9: a directory root is never itself tested against the exclusion
patterns — `display_project_structure` emits its `name/` line and
`read_files` walks it even when it matches a pattern — while a file
root is tested and dropped when excluded. -/
theorem c9_root_dir_never_tested :
    (∀ (idp : String → Bool) (np : String → String) (pats : List String)
      (maxd : Option Nat) (p : String) (cs : List FSNode),
      should_exclude idp np p pats = true →
      (basename p ++ "/") ∈
        display_root (fun q => should_exclude idp np q pats) maxd (RootPath.dir p cs)) ∧
    (∀ (idp : String → Bool) (np : String → String) (pats : List String)
      (maxd : Option Nat) (p : String) (b : FileBlob),
      should_exclude idp np p pats = true →
      display_root (fun q => should_exclude idp np q pats) maxd (RootPath.file p b) = []) ∧
    (∀ (se : String → Bool) (maxd : Option Nat) (p : String) (cs : List FSNode),
      se p = true → collect_root se maxd (RootPath.dir p cs) = walk_collect se maxd p cs) ∧
    (∀ (se : String → Bool) (maxd : Option Nat) (p : String) (b : FileBlob),
      se p = true → collect_root se maxd (RootPath.file p b) = []) := by
  refine ⟨?_, ?_, ?_, ?_⟩
  · intro idp np pats maxd p cs hse
    simp only [display_root]
    exact List.mem_cons_self _ _
  · intro idp np pats maxd p b hse
    simp [display_root, hse]
  · intro se maxd p cs hse
    rfl
  · intro se maxd p b hse
    simp [collect_root, hse]

/-- Witness for C9: the excluded directory root `/tmp/venv` still
produces its `venv/` line and is still walked, while the equally
excluded file root produces nothing. -/
theorem c9_witness :
    should_exclude noDirPat id "/tmp/venv" ["venv"] = true ∧
    (basename "/tmp/venv" ++ "/") ∈
      display_root (fun q => should_exclude noDirPat id q ["venv"]) none
        (RootPath.dir "/tmp/venv" [.file "x.txt" (textBlob "s")]) ∧
    display_root (fun q => should_exclude noDirPat id q ["venv"]) none
        (RootPath.file "/tmp/venv" (textBlob "s")) = [] ∧
    collect_root (fun q => should_exclude noDirPat id q ["venv"]) none
        (RootPath.dir "/tmp/venv" [.file "x.txt" (textBlob "s")]) =
      walk_collect (fun q => should_exclude noDirPat id q ["venv"]) none "/tmp/venv"
        [.file "x.txt" (textBlob "s")] :=
  ⟨by decide,
   c9_root_dir_never_tested.1 noDirPat id ["venv"] none "/tmp/venv"
     [.file "x.txt" (textBlob "s")] (by decide),
   c9_root_dir_never_tested.2.1 noDirPat id ["venv"] none "/tmp/venv" (textBlob "s")
     (by decide),
   c9_root_dir_never_tested.2.2.1 (fun q => should_exclude noDirPat id q ["venv"]) none
     "/tmp/venv" [.file "x.txt" (textBlob "s")] (by decide)⟩

/-- C6 (amended): connectors are chosen by position in the full sorted
listing, before exclusion filtering: the listing's last entry gets
`└── ` and its descendants' lines continue the prefix with four
spaces; any earlier entry gets `├── ` and its descendants' lines
continue with `│   `; and every rendered line extends the accumulated
prefix of its level.  When the listing's last entry is excluded, the
last RENDERED sibling therefore keeps `├── ` (see the
counterexample). -/
theorem c6_tree_connectors :
    (∀ (se : String → Bool) (maxd : Option Nat) (fuel : Nat) (directory pre : String)
      (depth : Nat) (children : List FSNode) (line : String),
      line ∈ build_treeF se maxd fuel directory pre depth children →
      ∃ s, line = pre ++ s) ∧
    (∀ (se : String → Bool) (maxd : Option Nat) (fuel : Nat) (directory pre : String)
      (depth : Nat) (children : List FSNode) (l : List FSNode) (e : FSNode),
      sortNodes children = l ++ [e] →
      se (directory ++ "/" ++ nodeName e) = false →
      tree_stop maxd depth = false →
      ∃ front sub, build_treeF se maxd (fuel+1) directory pre depth children =
        front ++ (pre ++ "└── " ++ nodeName e ++ (if nodeIsDir e then "/" else "")) :: sub ∧
        ∀ line ∈ sub, ∃ s, line = pre ++ "    " ++ s) ∧
    (∀ (se : String → Bool) (maxd : Option Nat) (fuel : Nat) (directory pre : String)
      (depth : Nat) (children : List FSNode) (l1 : List FSNode) (e : FSNode)
      (l2 : List FSNode),
      sortNodes children = l1 ++ e :: l2 → l2 ≠ [] →
      se (directory ++ "/" ++ nodeName e) = false →
      tree_stop maxd depth = false →
      ∃ front sub tail, build_treeF se maxd (fuel+1) directory pre depth children =
        front ++ (pre ++ "├── " ++ nodeName e ++ (if nodeIsDir e then "/" else "")) ::
          (sub ++ tail) ∧
        ∀ line ∈ sub, ∃ s, line = pre ++ "│   " ++ s) :=
  ⟨fun _ _ _ _ _ _ _ _ h => build_treeF_line_pre h,
   fun se maxd fuel directory pre depth children l e hl hse hstop =>
     tree_last_entry se maxd fuel directory pre depth children l e hl hse hstop,
   fun se maxd fuel directory pre depth children l1 e l2 hl hne hse hstop =>
     tree_mid_entry se maxd fuel directory pre depth children l1 e l2 hl hne hse hstop⟩

/-- Witness for C6 on the listing `[a.txt, bb/]` with no exclusions:
`a.txt` (non-last) and `bb` (last). -/
theorem c6_witness :
    (sortNodes [FSNode.file "a.txt" (textBlob "t"), FSNode.dir "bb" []] =
      [FSNode.file "a.txt" (textBlob "t")] ++ [FSNode.dir "bb" []] ∧
     noDirPat ("/r" ++ "/" ++ nodeName (FSNode.dir "bb" [])) = false ∧
     tree_stop none 0 = false) ∧
    (∃ front sub, build_treeF noDirPat none (3+1) "/r" "" 0
        [FSNode.file "a.txt" (textBlob "t"), FSNode.dir "bb" []] =
      front ++ ("" ++ "└── " ++ nodeName (FSNode.dir "bb" []) ++
        (if nodeIsDir (FSNode.dir "bb" []) then "/" else "")) :: sub ∧
      ∀ line ∈ sub, ∃ s, line = "" ++ "    " ++ s) ∧
    (∃ front sub tail, build_treeF noDirPat none (3+1) "/r" "" 0
        [FSNode.file "a.txt" (textBlob "t"), FSNode.dir "bb" []] =
      front ++ ("" ++ "├── " ++ nodeName (FSNode.file "a.txt" (textBlob "t")) ++
        (if nodeIsDir (FSNode.file "a.txt" (textBlob "t")) then "/" else "")) ::
        (sub ++ tail) ∧
      ∀ line ∈ sub, ∃ s, line = "" ++ "│   " ++ s) :=
  ⟨⟨rfl, rfl, rfl⟩,
   c6_tree_connectors.2.1 noDirPat none 3 "/r" "" 0
     [FSNode.file "a.txt" (textBlob "t"), FSNode.dir "bb" []]
     [FSNode.file "a.txt" (textBlob "t")] (FSNode.dir "bb" []) rfl rfl rfl,
   c6_tree_connectors.2.2 noDirPat none 3 "/r" "" 0
     [FSNode.file "a.txt" (textBlob "t"), FSNode.dir "bb" []]
     [] (FSNode.file "a.txt" (textBlob "t")) [FSNode.dir "bb" []] rfl
     (List.cons_ne_nil _ _) rfl rfl⟩

/-- Counterexample for C6 as stated: excluding `zz`, the sorted
listing's last entry, leaves `a.txt` as the last RENDERED sibling at
its level, yet it is prefixed `├── `, not `└── `. -/
theorem c6_cex :
    display_root (fun q => should_exclude noDirPat id q ["zz"]) none (RootPath.dir "/r" fsC6) =
      ["r/", "├── a.txt"] ∧
    display_project_structure noDirPat id [RootPath.dir "/r" fsC6] ["zz"] none =
      "r/\n├── a.txt" := by
  constructor
  · decide
  · decide

/-- C7 (amended): `build_tree` returns nothing once `depth` strictly
exceeds `max_depth` — so entries up to `max_depth + 1` directory
levels below the root are rendered: on the `a/b/c.txt` scenario with
`max_depth = 1` the output shows `a/` AND `b/`, cutting off only
`c.txt`. -/
theorem c7_depth_cutoff :
    (∀ (se : String → Bool) (m : Nat) (directory pre : String) (depth : Nat)
      (children : List FSNode), tree_stop (some m) depth = true →
      build_tree se (some m) directory pre depth children = []) ∧
    display_root (fun q => should_exclude noDirPat id q []) (some 1) (RootPath.dir "/r" fsC7) =
      ["r/", "└── a/", "    └── b/"] := by
  constructor
  · intro se m directory pre depth children h
    simp [build_tree, build_treeF, h]
  · decide

/-- Witness for C7: at `max_depth = 1` and depth 2 the recursion has
stopped. -/
theorem c7_witness :
    tree_stop (some 1) 2 = true ∧
    build_tree noDirPat (some 1) "/r/a/b" "        " 2 [FSNode.file "c.txt" (textBlob "hi")] = [] :=
  ⟨by decide,
   c7_depth_cutoff.1 noDirPat 1 "/r/a/b" "        " 2 [FSNode.file "c.txt" (textBlob "hi")]
     (by decide)⟩

/-- Counterexample for C7 as stated: with `max_depth = 1` on a root
containing `a/b/c.txt`, the directory `b` IS rendered (`    └── b/`),
contradicting the claim that nothing below `a` appears; only `c.txt`
is cut off. -/
theorem c7_cex :
    display_project_structure noDirPat id [RootPath.dir "/r" fsC7] [] (some 1) =
      "r/\n└── a/\n    └── b/" := by
  decide
